import Mathlib

set_option autoImplicit false

namespace KubeVirt

/-!
Verification of the per-node domain cache ("SharedStateCache" / domain
informer) and of the admission-webhook helpers of this repository.

The cache, bootstrap lister and event ingester are exercised by
pkg/virt-launcher/virtwrap/cache/cache_test.go; their implementation is not
part of the shown sources, so they are modelled from the specification
(spec.md sections 3, 4.1, 4.2, 4.3 and 7).  The admission-webhook functions
NewAdmissionResponse and MigrationUpdateAdmitter.Admit are embedded directly
from their Go sources.
-/

/-- Modelled from the spec: a Domain (spec.md section 3) has identity
`namespace/name` and carries an otherwise opaque state snapshot, here
represented by the single mutable field exercised by the tests (Spec.UUID).
The core interprets the snapshot only up to equality and whole-object
replacement. -/
structure Domain where
  metaNamespace : String
  metaName : String
  uuid : String
  deriving DecidableEq

/-- Identity key of a domain: `namespace/name`. -/
def Domain.key (d : Domain) : String :=
  d.metaNamespace ++ "/" ++ d.metaName

/-- Modelled from the spec: api.NewMinimalDomain used by the tests builds a
domain named `name` in namespace `default`. -/
def NewMinimalDomain (name : String) : Domain :=
  { metaNamespace := "default", metaName := name, uuid := "" }

/-- Modelled from the spec: the kind of a watch event (spec.md section 3). -/
inductive EventKind where
  | Added
  | Modified
  | Deleted
  deriving DecidableEq

/-- Modelled from the spec: a WatchEvent is `{Kind, Domain}`
(spec.md section 3). -/
structure WatchEvent where
  kind : EventKind
  domain : Domain
  deriving DecidableEq

/-- Modelled from the spec: the SharedStateCache keyed store, a keyed mapping
from identity keys to Domain values (spec.md sections 3 and 4.1), embedded as
an association list. -/
abbrev Cache := List (String × Domain)

/-- The initially empty cache. -/
def Cache.empty : Cache := []

/-- Modelled from the spec: `Get(key) -> (Domain, found)`, a consistent point
read (spec.md section 4.1). -/
def Cache.get (c : Cache) (k : String) : Option Domain :=
  match c with
  | [] => none
  | p :: rest => if p.1 = k then some p.2 else Cache.get rest k

/-- Modelled from the spec: `List()`, a snapshot copy of all stored domains
(spec.md section 4.1). -/
def Cache.list (c : Cache) : List Domain :=
  c.map Prod.snd

/-- All entries stored under key `k` (for stating the one-entry-per-key
invariant of spec.md section 3). -/
def Cache.entriesFor (c : Cache) (k : String) : List (String × Domain) :=
  c.filter (fun p => p.1 = k)

/-- Replacement of the entry at key `k` by `(k, d)`, leaving other entries
untouched. -/
def replaceFun (k : String) (d : Domain) : String × Domain → String × Domain :=
  fun p => if p.1 = k then (k, d) else p

/-- Modelled from the spec: `Add(key, domain)` inserts or replaces and emits
`Added` if the key was absent, `Modified` if present, with no content
diffing (spec.md section 4.1). -/
def Cache.add (c : Cache) (k : String) (d : Domain) : Cache × WatchEvent :=
  match Cache.get c k with
  | none => ((k, d) :: c, ⟨EventKind.Added, d⟩)
  | some _ => (c.map (replaceFun k d), ⟨EventKind.Modified, d⟩)

/-- Modelled from the spec: `Delete(key)` removes if present and emits
`Deleted`; it is a no-op emitting no event if the key was already absent
(spec.md section 4.1). -/
def Cache.delete (c : Cache) (k : String) : Cache × Option WatchEvent :=
  match Cache.get c k with
  | none => (c, none)
  | some d => (c.filter (fun p => p.1 ≠ k), some ⟨EventKind.Deleted, d⟩)

/-- A mutating cache operation, as exposed to external writers (spec.md
section 5: all external writes go through Add/Delete). -/
inductive Op where
  | add (key : String) (domain : Domain)
  | del (key : String)
  deriving DecidableEq

/-- The identity key an operation is about. -/
def Op.key : Op → String
  | .add k _ => k
  | .del k => k

/-- Apply one operation to the cache, discarding the emitted event. -/
def applyOp (c : Cache) (op : Op) : Cache :=
  match op with
  | .add k d => (Cache.add c k d).1
  | .del k => (Cache.delete c k).1

/-- Apply a sequence of operations in order. -/
def applyOps (c : Cache) (ops : List Op) : Cache :=
  ops.foldl applyOp c

/-- The last operation in `ops` whose key is `k`, if any. -/
def lastOpFor (ops : List Op) (k : String) : Option Op :=
  (ops.filter (fun op => Op.key op = k)).getLast?

/-- The domain of the last operation for key `k`, when that operation is an
`add`; `none` when the key was never touched or its last operation was a
`del`. -/
def lastAddDomain (ops : List Op) (k : String) : Option Domain :=
  match lastOpFor ops k with
  | some (Op.add _ d) => some d
  | _ => none

/-- Modelled from the spec: the informer state exposed to readers — the
shared cache plus the sync gate released once the bootstrap snapshot is
fully applied (spec.md sections 4.1 and 4.2 step 5). -/
structure InformerState where
  cache : Cache
  synced : Bool
  deriving DecidableEq

/-- Modelled from the spec: the bootstrap snapshot is applied to the cache
as one batch of Added events, i.e. one Add per discovered domain, keyed by
its identity (spec.md section 4.2 steps 4 and 5). -/
def bootstrapOps (domains : List Domain) : List Op :=
  domains.map (fun d => Op.add (Domain.key d) d)

/-- Modelled from the spec: applying the aggregated bootstrap slice to an
empty cache and then releasing the sync gate (spec.md section 4.2 step 5). -/
def bootstrapApply (domains : List Domain) : InformerState :=
  { cache := applyOps Cache.empty (bootstrapOps domains), synced := true }

/-- Modelled from the spec: `WaitForSync(stopSignal) -> bool` returns false
immediately when the stop signal is already raised, and otherwise reports
whether the bootstrap snapshot has been fully applied (spec.md
section 4.1). -/
def waitForSync (st : InformerState) (stopRaised : Bool) : Bool :=
  if stopRaised then false else st.synced

/-- Modelled from the spec: the outcome of contacting one per-VM socket
during bootstrap — either the domains its supervisor reports, or a
connection failure, timeout or RPC-level error (spec.md section 4.2
step 3). -/
inductive SocketResult where
  | ok (domains : List Domain)
  | failed
  deriving DecidableEq

/-- Modelled from the spec: the outcome of scanning the socket directory —
either the directory is unreadable, or it yields a list of per-socket
results (spec.md section 4.2). -/
inductive DirScan where
  | unreadable
  | sockets (results : List SocketResult)
  deriving DecidableEq

/-- Modelled from the spec: listAllKnownDomains aggregates all successful
per-socket results into one slice, skipping failed sockets, and fails as a
whole only when the directory itself cannot be read (spec.md section 4.2
steps 3-4 and its edge case). -/
def listAllKnownDomains (scan : DirScan) : Except String (List Domain) :=
  match scan with
  | .unreadable => Except.error "failed to read the socket directory"
  | .sockets results =>
      Except.ok (results.foldl
        (fun acc r => match r with | .ok ds => acc ++ ds | .failed => acc) [])

/-- Modelled from the spec: bootstrap runs listAllKnownDomains and, on
success, applies the aggregated slice as a batch of Added events and
releases the sync gate (spec.md section 4.2 step 5). -/
def runBootstrap (scan : DirScan) : Except String InformerState :=
  (listAllKnownDomains scan).map bootstrapApply

/-- Modelled from the spec: the event ingester translates each received
event into the corresponding cache mutation — Added/Modified become
`Add(key, domain)`, Deleted becomes `Delete(key)` — using the identity
embedded in the event (spec.md section 4.3). -/
def ingestEvent (c : Cache) (e : WatchEvent) : Cache :=
  match e.kind with
  | EventKind.Added => (Cache.add c (Domain.key e.domain) e.domain).1
  | EventKind.Modified => (Cache.add c (Domain.key e.domain) e.domain).1
  | EventKind.Deleted => (Cache.delete c (Domain.key e.domain)).1

/-- Apply a stream of received events in receipt order, one at a time
(spec.md section 4.3). -/
def ingestEvents (c : Cache) (es : List WatchEvent) : Cache :=
  es.foldl ingestEvent c

/-! Admission-webhook helpers, embedded from
pkg/util/webhooks/validating-webhooks/validating-webhook.go and
pkg/virt-api/webhooks/validating-webhook/admitters/migration-update-admitter.go. -/

/-- One cause of a validation failure (metav1.StatusCause: a cause type and
a message). -/
structure StatusCause where
  type : String
  message : String
  deriving DecidableEq

/-- The Result payload of a rejecting admission response (metav1.Status with
its Details.Causes flattened into `details`). -/
structure Status where
  message : String
  reason : String
  code : Nat
  details : List StatusCause
  deriving DecidableEq

/-- An admission response: the Allowed verdict plus an optional Result
(admissionv1.AdmissionResponse restricted to the fields this code sets). -/
structure AdmissionResponse where
  allowed : Bool
  result : Option Status
  deriving DecidableEq

/-- Embedded from validating-webhook.go: NewPassingAdmissionResponse returns
`{Allowed: true}`. -/
def NewPassingAdmissionResponse : AdmissionResponse :=
  { allowed := true, result := none }

/-- Embedded from validating-webhook.go, NewAdmissionResponse lines 37-44:
the global message accumulator — start from the empty string and, for each
cause in order, replace an empty accumulator by the cause message and
otherwise append `", "` and the cause message. -/
def joinCauseMessages (causes : List StatusCause) : String :=
  causes.foldl
    (fun g c => if g = "" then c.message else g ++ ", " ++ c.message) ""

/-- Embedded from validating-webhook.go: NewAdmissionResponse returns the
passing response when there are no causes, and otherwise a response whose
Result carries the accumulated message, reason Invalid, HTTP code 422 and
all the causes as details; its Allowed field is left at the Go zero value
false. -/
def NewAdmissionResponse (causes : List StatusCause) : AdmissionResponse :=
  if causes.length = 0 then
    NewPassingAdmissionResponse
  else
    { allowed := false,
      result := some
        { message := joinCauseMessages causes,
          reason := "Invalid",
          code := 422,
          details := causes } }

/-- Modelled from the spec: `webhookutils.ToAdmissionResponse` of
pkg/util/webhooks is called by migration-update-admitter.go but its source
is not among the shown files; the spec treats the webhook framework as an
external collaborator.  It builds the same rejection shape as the non-empty
branch of NewAdmissionResponse in validating-webhook.go: Allowed left false,
Result carrying the joined message, reason Invalid, code 422 and the causes
as details. -/
def ToAdmissionResponse (causes : List StatusCause) : AdmissionResponse :=
  { allowed := false,
    result := some
      { message := joinCauseMessages causes,
        reason := "Invalid",
        code := 422,
        details := causes } }

/-- Modelled from the spec: `webhookutils.ToAdmissionResponseError` of
pkg/util/webhooks, also not among the shown files: a rejection whose Result
carries only the error message, with HTTP code 400. -/
def ToAdmissionResponseError (msg : String) : AdmissionResponse :=
  { allowed := false,
    result := some
      { message := msg, reason := "", code := 400, details := [] } }

/-- The spec of a VirtualMachineInstanceMigration (the object field compared
with reflect.DeepEqual by the admitter), interpreted only up to equality. -/
structure VirtualMachineInstanceMigrationSpec where
  vmiName : String
  deriving DecidableEq

/-- A VirtualMachineInstanceMigration: its mutable metadata (opaque here)
and its Spec. -/
structure VirtualMachineInstanceMigration where
  meta : String
  spec : VirtualMachineInstanceMigrationSpec
  deriving DecidableEq

/-- Outcome of getAdmissionReviewMigration plus the schema validation in
MigrationUpdateAdmitter.Admit: either decoding fails with an error message,
or it yields the new and old migration objects; `schemaResp` below is the
response ValidateSchema returns when validation fails, `none` when it
passes. -/
inductive MigrationReviewDecode where
  | err (msg : String)
  | ok (newMigration oldMigration : VirtualMachineInstanceMigration)
  deriving DecidableEq

/-- The cause the admitter attaches when a migration spec update is
rejected (migration-update-admitter.go lines 48-53). -/
def migrationSpecRestrictedCause : StatusCause :=
  { type := "FieldValueNotSupported",
    message := "update of Migration object's spec is restricted" }

/-- Embedded from migration-update-admitter.go: Admit returns the decode
error response on decode failure, the schema response when schema
validation fails, a rejection via ToAdmissionResponse when the new and old
Specs differ, and `{Allowed: true}` otherwise. -/
def MigrationUpdateAdmitter.Admit (decoded : MigrationReviewDecode)
    (schemaResp : Option AdmissionResponse) : AdmissionResponse :=
  match decoded with
  | .err m => ToAdmissionResponseError m
  | .ok newMigration oldMigration =>
    match schemaResp with
    | some resp => resp
    | none =>
      if ¬ (newMigration.spec = oldMigration.spec) then
        ToAdmissionResponse [migrationSpecRestrictedCause]
      else
        { allowed := true, result := none }

/-- The messages of the causes carried by a response's Result. -/
def responseCauseMessages (r : AdmissionResponse) : List String :=
  (r.result.elim [] Status.details).map StatusCause.message

/-! Basic facts about the cache operations. -/

theorem entriesFor_cons (p : String × Domain) (c : Cache) (k : String) :
    Cache.entriesFor (p :: c) k
      = if p.1 = k then p :: Cache.entriesFor c k else Cache.entriesFor c k := by
  by_cases h : p.1 = k <;> simp [Cache.entriesFor, List.filter_cons, h]

theorem get_eq_head_entriesFor (c : Cache) (k : String) :
    Cache.get c k = ((Cache.entriesFor c k).head?).map Prod.snd := by
  induction c with
  | nil => rfl
  | cons p rest ih =>
    by_cases h : p.1 = k <;> simp [Cache.get, entriesFor_cons, h, ih]

theorem get_eq_none_iff_entriesFor (c : Cache) (k : String) :
    Cache.get c k = none ↔ Cache.entriesFor c k = [] := by
  rw [get_eq_head_entriesFor]
  cases h : Cache.entriesFor c k <;> simp [h]

theorem entriesFor_map_replace_self (c : Cache) (k : String) (d : Domain) :
    Cache.entriesFor (c.map (replaceFun k d)) k
      = (Cache.entriesFor c k).map (fun _ => (k, d)) := by
  induction c with
  | nil => rfl
  | cons p rest ih =>
    by_cases h : p.1 = k <;> simp [replaceFun, entriesFor_cons, h, ih]

theorem entriesFor_map_replace_ne (c : Cache) (yk : String) (d : Domain)
    (k : String) (h : yk ≠ k) :
    Cache.entriesFor (c.map (replaceFun yk d)) k = Cache.entriesFor c k := by
  induction c with
  | nil => rfl
  | cons p rest ih =>
    by_cases h1 : p.1 = yk
    · simp [replaceFun, entriesFor_cons, h1, h, ih]
    · simp [replaceFun, entriesFor_cons, h1, ih]

theorem entriesFor_filterNot_self (c : Cache) (k : String) :
    Cache.entriesFor (c.filter (fun p => !decide (p.1 = k))) k = [] := by
  induction c with
  | nil => rfl
  | cons p rest ih =>
    by_cases h : p.1 = k <;> simp [List.filter_cons, entriesFor_cons, h, ih]

theorem entriesFor_filterNot_ne (c : Cache) (yk k : String) (h : yk ≠ k) :
    Cache.entriesFor (c.filter (fun p => !decide (p.1 = yk))) k
      = Cache.entriesFor c k := by
  induction c with
  | nil => rfl
  | cons p rest ih =>
    by_cases h1 : p.1 = yk
    · have h2 : ¬ p.1 = k := by rw [h1]; exact h
      simp [List.filter_cons, entriesFor_cons, h1, h2, h, ih]
    · by_cases h2 : p.1 = k <;>
        simp [List.filter_cons, entriesFor_cons, h1, h2, h, Ne.symm h, ih]

theorem entriesFor_add_self (c : Cache) (k : String) (d : Domain)
    (hgood : Cache.entriesFor c k = [] ∨ ∃ d0, Cache.entriesFor c k = [(k, d0)]) :
    Cache.entriesFor (Cache.add c k d).1 k = [(k, d)] := by
  rcases hgood with h | ⟨d0, h⟩
  · have hget : Cache.get c k = none := (get_eq_none_iff_entriesFor c k).2 h
    simp [Cache.add, hget, entriesFor_cons, h]
  · have hget : Cache.get c k = some d0 := by
      rw [get_eq_head_entriesFor, h]; rfl
    simp [Cache.add, hget, entriesFor_map_replace_self, h]

theorem entriesFor_add_ne (c : Cache) (yk : String) (d : Domain)
    (k : String) (h : yk ≠ k) :
    Cache.entriesFor (Cache.add c yk d).1 k = Cache.entriesFor c k := by
  cases hget : Cache.get c yk with
  | none => simp [Cache.add, hget, entriesFor_cons, h]
  | some d0 => simp [Cache.add, hget, entriesFor_map_replace_ne c yk d k h]

theorem entriesFor_delete_self (c : Cache) (k : String) :
    Cache.entriesFor (Cache.delete c k).1 k = [] := by
  cases hget : Cache.get c k with
  | none =>
    have h := (get_eq_none_iff_entriesFor c k).1 hget
    simp [Cache.delete, hget, h]
  | some d0 => simp [Cache.delete, hget, entriesFor_filterNot_self]

theorem entriesFor_delete_ne (c : Cache) (yk k : String) (h : yk ≠ k) :
    Cache.entriesFor (Cache.delete c yk).1 k = Cache.entriesFor c k := by
  cases hget : Cache.get c yk with
  | none => simp [Cache.delete, hget]
  | some d0 => simp [Cache.delete, hget, entriesFor_filterNot_ne c yk k h]

/-- The central invariant: starting from the empty cache, the entries stored
under a key are empty unless the last operation for that key was an `add`,
in which case exactly the one entry of that `add` is stored. -/
theorem entriesFor_applyOps_empty (ops : List Op) (k : String) :
    Cache.entriesFor (applyOps Cache.empty ops) k
      = (lastAddDomain ops k).elim [] (fun d => [(k, d)]) := by
  induction ops using List.reverseRecOn with
  | nil => rfl
  | append_singleton l op ih =>
    have happ : applyOps Cache.empty (l ++ [op])
        = applyOp (applyOps Cache.empty l) op := by
      simp [applyOps, List.foldl_append]
    rw [happ]
    cases op with
    | add ka d =>
      by_cases hk : ka = k
      · subst hk
        have hgood : Cache.entriesFor (applyOps Cache.empty l) ka = [] ∨
            ∃ d0, Cache.entriesFor (applyOps Cache.empty l) ka = [(ka, d0)] := by
          rw [ih]
          cases lastAddDomain l ka with
          | none => exact Or.inl rfl
          | some d0 => exact Or.inr ⟨d0, rfl⟩
        have hlast : lastAddDomain (l ++ [Op.add ka d]) ka = some d := by
          simp [lastAddDomain, lastOpFor, List.filter_append, List.filter_cons,
            Op.key, List.getLast?_concat]
        rw [hlast]
        exact entriesFor_add_self _ ka d hgood
      · have hlast : lastAddDomain (l ++ [Op.add ka d]) k = lastAddDomain l k := by
          simp [lastAddDomain, lastOpFor, List.filter_append, List.filter_cons,
            Op.key, hk]
        rw [hlast, ← ih]
        exact entriesFor_add_ne _ ka d k hk
    | del ka =>
      by_cases hk : ka = k
      · subst hk
        have hlast : lastAddDomain (l ++ [Op.del ka]) ka = none := by
          simp [lastAddDomain, lastOpFor, List.filter_append, List.filter_cons,
            Op.key, List.getLast?_concat]
        rw [hlast]
        exact entriesFor_delete_self _ ka
      · have hlast : lastAddDomain (l ++ [Op.del ka]) k = lastAddDomain l k := by
          simp [lastAddDomain, lastOpFor, List.filter_append, List.filter_cons,
            Op.key, hk]
        rw [hlast, ← ih]
        exact entriesFor_delete_ne _ ka k hk

theorem get_applyOps_empty (ops : List Op) (k : String) :
    Cache.get (applyOps Cache.empty ops) k = lastAddDomain ops k := by
  rw [get_eq_head_entriesFor, entriesFor_applyOps_empty]
  cases lastAddDomain ops k <;> rfl

theorem entriesFor_applyOps_untouched (ops : List Op) (c : Cache) (k : String)
    (hops : ∀ op ∈ ops, Op.key op ≠ k) :
    Cache.entriesFor (applyOps c ops) k = Cache.entriesFor c k := by
  induction ops generalizing c with
  | nil => rfl
  | cons op rest ih =>
    have h1 : Op.key op ≠ k := hops op (by simp)
    have h2 : ∀ op2 ∈ rest, Op.key op2 ≠ k := fun op2 hm => hops op2 (by simp [hm])
    have hstep : applyOps c (op :: rest) = applyOps (applyOp c op) rest := rfl
    rw [hstep, ih (applyOp c op) h2]
    cases op with
    | add ka d => exact entriesFor_add_ne c ka d k h1
    | del ka => exact entriesFor_delete_ne c ka k h1

theorem mem_list_of_entriesFor (c : Cache) (k : String) (d : Domain)
    (h : Cache.entriesFor c k = [(k, d)]) : d ∈ Cache.list c := by
  have hmem : (k, d) ∈ c.filter (fun p => p.1 = k) := by
    rw [show c.filter (fun p => p.1 = k) = Cache.entriesFor c k from rfl, h]
    simp
  exact List.mem_map_of_mem Prod.snd (List.mem_of_mem_filter hmem)

theorem get_map_replace_self (c : Cache) (k : String) (d d0 : Domain)
    (h : Cache.get c k = some d0) :
    Cache.get (c.map (replaceFun k d)) k = some d := by
  rw [get_eq_head_entriesFor, entriesFor_map_replace_self]
  cases hE : Cache.entriesFor c k with
  | nil =>
    rw [(get_eq_none_iff_entriesFor c k).2 hE] at h
    exact Option.noConfusion h
  | cons q rest => simp

@[simp] theorem Op.key_add (k : String) (d : Domain) :
    Op.key (Op.add k d) = k := rfl

@[simp] theorem Op.key_del (k : String) : Op.key (Op.del k) = k := rfl

theorem bootstrapOps_cons (x : Domain) (rest : List Domain) :
    bootstrapOps (x :: rest) = Op.add (Domain.key x) x :: bootstrapOps rest := rfl

theorem filter_key_nodup (domains : List Domain) (d : Domain)
    (hmem : d ∈ domains) (hkeys : (domains.map Domain.key).Nodup) :
    domains.filter (fun x => Domain.key x = Domain.key d) = [d] := by
  induction domains with
  | nil => cases hmem
  | cons x rest ih =>
    rw [List.map_cons, List.nodup_cons] at hkeys
    rcases List.mem_cons.1 hmem with rfl | hmem2
    · have hrest : rest.filter (fun y => Domain.key y = Domain.key d) = [] := by
        rw [List.filter_eq_nil_iff]
        intro y hy
        simp only [decide_eq_true_eq]
        intro hkey
        exact hkeys.1 (hkey ▸ List.mem_map_of_mem Domain.key hy)
      simp [List.filter_cons, hrest]
    · have hne : Domain.key x ≠ Domain.key d := by
        intro he
        exact hkeys.1 (he ▸ List.mem_map_of_mem Domain.key hmem2)
      simp [List.filter_cons, hne, ih hmem2 hkeys.2]

theorem filter_bootstrapOps (domains : List Domain) (k : String) :
    (bootstrapOps domains).filter (fun op => Op.key op = k)
      = (domains.filter (fun x => Domain.key x = k)).map
          (fun x => Op.add (Domain.key x) x) := by
  induction domains with
  | nil => rfl
  | cons x rest ih =>
    by_cases h : Domain.key x = k <;>
      simp [bootstrapOps_cons, List.filter_cons, h, ih]

theorem lastAddDomain_bootstrap_of_nodup (domains : List Domain) (d : Domain)
    (hmem : d ∈ domains) (hkeys : (domains.map Domain.key).Nodup) :
    lastAddDomain (bootstrapOps domains) (Domain.key d) = some d := by
  unfold lastAddDomain lastOpFor
  rw [filter_bootstrapOps, filter_key_nodup domains d hmem hkeys]
  rfl

/-! The claims. -/

/-- C1: For every finite sequence of Add and Delete operations applied to an
initially empty cache, the store holds exactly one entry — the domain of the
last-applied Add — for every key whose last-applied operation was an Add,
and no entry for keys whose last-applied operation was a Delete or which
were never touched, so List returns exactly one domain per net-added key;
in particular, after an Added then a Deleted event for one key, Get reports
not-found. -/
theorem c1_list_reflects_net_last_operation (ops : List Op) (k : String) :
    Cache.entriesFor (applyOps Cache.empty ops) k
      = (lastAddDomain ops k).elim [] (fun d => [(k, d)]) ∧
    Cache.list (Cache.entriesFor (applyOps Cache.empty ops) k)
      = (lastAddDomain ops k).elim [] (fun d => [d]) ∧
    Cache.get (applyOps Cache.empty ops) k = lastAddDomain ops k ∧
    ∀ d : Domain, Cache.get (applyOps Cache.empty [Op.add k d, Op.del k]) k = none := by
  refine ⟨entriesFor_applyOps_empty ops k, ?_, get_applyOps_empty ops k, ?_⟩
  · rw [entriesFor_applyOps_empty ops k]
    cases lastAddDomain ops k <;> rfl
  · intro d
    rw [get_applyOps_empty]
    simp [lastAddDomain, lastOpFor, List.filter_cons, Op.key]

/-- C2: once the sync gate is released, every domain discovered during
bootstrap is visible via Get and List with exactly its bootstrap-time value,
and stays visible as long as no later Add or Delete touches its key. -/
theorem c2_bootstrap_domains_visible_until_superseded
    (domains : List Domain) (d : Domain) (ops : List Op)
    (hmem : d ∈ domains)
    (hkeys : (domains.map Domain.key).Nodup)
    (hops : ∀ op ∈ ops, Op.key op ≠ Domain.key d) :
    waitForSync (bootstrapApply domains) false = true ∧
    Cache.get (applyOps (bootstrapApply domains).cache ops) (Domain.key d)
      = some d ∧
    d ∈ Cache.list (applyOps (bootstrapApply domains).cache ops) := by
  have h1 : Cache.entriesFor (applyOps Cache.empty (bootstrapOps domains))
      (Domain.key d) = [(Domain.key d, d)] := by
    rw [entriesFor_applyOps_empty,
      lastAddDomain_bootstrap_of_nodup domains d hmem hkeys]
    rfl
  have h2 : Cache.entriesFor (applyOps (bootstrapApply domains).cache ops)
      (Domain.key d) = [(Domain.key d, d)] := by
    rw [entriesFor_applyOps_untouched ops _ _ hops]
    exact h1
  refine ⟨rfl, ?_, mem_list_of_entriesFor _ _ _ h2⟩
  rw [get_eq_head_entriesFor, h2]
  rfl

/-- Witness for C2: one bootstrapped domain stays visible across an
unrelated Delete. -/
theorem c2_bootstrap_witness :
    waitForSync (bootstrapApply [NewMinimalDomain "test"]) false = true ∧
    Cache.get (applyOps (bootstrapApply [NewMinimalDomain "test"]).cache
        [Op.del "default/other"]) (Domain.key (NewMinimalDomain "test"))
      = some (NewMinimalDomain "test") ∧
    NewMinimalDomain "test" ∈ Cache.list
      (applyOps (bootstrapApply [NewMinimalDomain "test"]).cache
        [Op.del "default/other"]) :=
  c2_bootstrap_domains_visible_until_superseded
    [NewMinimalDomain "test"] (NewMinimalDomain "test") [Op.del "default/other"]
    (by decide) (by decide) (by decide)

/-- C3: Add inserts or replaces the entry for the key and emits exactly one
event — Added when the key was absent, Modified when it was present, with no
content diffing — and afterwards Get returns the new domain. -/
theorem c3_add_inserts_or_replaces_and_emits (c : Cache) (k : String) (d : Domain) :
    (Cache.get c k = none →
        Cache.add c k d = ((k, d) :: c, ⟨EventKind.Added, d⟩)) ∧
    (∀ d0, Cache.get c k = some d0 →
        (Cache.add c k d).2 = ⟨EventKind.Modified, d⟩) ∧
    Cache.get (Cache.add c k d).1 k = some d := by
  refine ⟨?_, ?_, ?_⟩
  · intro h
    simp [Cache.add, h]
  · intro d0 h
    simp [Cache.add, h]
  · cases hget : Cache.get c k with
    | none => simp [Cache.add, hget, Cache.get]
    | some d0 =>
      simp only [Cache.add, hget]
      exact get_map_replace_self c k d d0 hget

/-- Witness for C3: Added on an absent key; Modified on a present key even
with identical content; Get sees the added value. -/
theorem c3_add_witness :
    Cache.add Cache.empty "default/test" (NewMinimalDomain "test")
      = (("default/test", NewMinimalDomain "test") :: Cache.empty,
          ⟨EventKind.Added, NewMinimalDomain "test"⟩) ∧
    (Cache.add [("default/test", NewMinimalDomain "test")] "default/test"
        (NewMinimalDomain "test")).2
      = ⟨EventKind.Modified, NewMinimalDomain "test"⟩ ∧
    Cache.get (Cache.add Cache.empty "default/test" (NewMinimalDomain "test")).1
        "default/test"
      = some (NewMinimalDomain "test") :=
  ⟨(c3_add_inserts_or_replaces_and_emits Cache.empty "default/test"
      (NewMinimalDomain "test")).1 (by decide),
   (c3_add_inserts_or_replaces_and_emits
      [("default/test", NewMinimalDomain "test")] "default/test"
      (NewMinimalDomain "test")).2.1 (NewMinimalDomain "test") (by decide),
   (c3_add_inserts_or_replaces_and_emits Cache.empty "default/test"
      (NewMinimalDomain "test")).2.2⟩

/-- C4: Delete removes the entry and emits one Deleted event when the key is
present, and is a no-op emitting no event when the key is absent. -/
theorem c4_delete_removes_or_noop (c : Cache) (k : String) :
    (∀ d0, Cache.get c k = some d0 →
        (Cache.delete c k).2 = some ⟨EventKind.Deleted, d0⟩ ∧
        Cache.get (Cache.delete c k).1 k = none) ∧
    (Cache.get c k = none → Cache.delete c k = (c, none)) := by
  constructor
  · intro d0 h
    refine ⟨by simp [Cache.delete, h], ?_⟩
    exact (get_eq_none_iff_entriesFor _ _).2 (entriesFor_delete_self c k)
  · intro h
    simp [Cache.delete, h]

/-- Witness for C4: deleting a present key emits Deleted and leaves the key
not-found; deleting an absent key changes nothing and emits nothing. -/
theorem c4_delete_witness :
    ((Cache.delete [("default/test", NewMinimalDomain "test")] "default/test").2
        = some ⟨EventKind.Deleted, NewMinimalDomain "test"⟩ ∧
      Cache.get (Cache.delete [("default/test", NewMinimalDomain "test")]
          "default/test").1 "default/test" = none) ∧
    Cache.delete Cache.empty "default/test" = (Cache.empty, none) :=
  ⟨(c4_delete_removes_or_noop [("default/test", NewMinimalDomain "test")]
      "default/test").1 (NewMinimalDomain "test") (by decide),
   (c4_delete_removes_or_noop Cache.empty "default/test").2 (by decide)⟩

/-- C5: a socket with no listener next to one live socket reporting one
domain is skipped: bootstrap completes without error and yields exactly one
cache entry. -/
theorem c5_dead_socket_skipped (d : Domain) :
    listAllKnownDomains
        (DirScan.sockets [SocketResult.failed, SocketResult.ok [d]])
      = Except.ok [d] ∧
    runBootstrap (DirScan.sockets [SocketResult.failed, SocketResult.ok [d]])
      = Except.ok (bootstrapApply [d]) ∧
    (Cache.list (bootstrapApply [d]).cache).length = 1 := by
  refine ⟨rfl, rfl, ?_⟩
  simp [bootstrapApply, bootstrapOps, applyOps, applyOp, Cache.add,
    Cache.empty, Cache.get, Cache.list]

/-- C6: three reachable sockets reporting testvm1, testvm2 and testvm3 in
namespace default yield exactly three entries under the expected keys. -/
theorem c6_three_sockets_three_entries :
    runBootstrap (DirScan.sockets
        [SocketResult.ok [NewMinimalDomain "testvm1"],
         SocketResult.ok [NewMinimalDomain "testvm2"],
         SocketResult.ok [NewMinimalDomain "testvm3"]])
      = Except.ok (bootstrapApply
          [NewMinimalDomain "testvm1", NewMinimalDomain "testvm2",
           NewMinimalDomain "testvm3"]) ∧
    (Cache.list (bootstrapApply
        [NewMinimalDomain "testvm1", NewMinimalDomain "testvm2",
         NewMinimalDomain "testvm3"]).cache).length = 3 ∧
    Cache.get (bootstrapApply
        [NewMinimalDomain "testvm1", NewMinimalDomain "testvm2",
         NewMinimalDomain "testvm3"]).cache "default/testvm1"
      = some (NewMinimalDomain "testvm1") ∧
    Cache.get (bootstrapApply
        [NewMinimalDomain "testvm1", NewMinimalDomain "testvm2",
         NewMinimalDomain "testvm3"]).cache "default/testvm2"
      = some (NewMinimalDomain "testvm2") ∧
    Cache.get (bootstrapApply
        [NewMinimalDomain "testvm1", NewMinimalDomain "testvm2",
         NewMinimalDomain "testvm3"]).cache "default/testvm3"
      = some (NewMinimalDomain "testvm3") :=
  ⟨rfl, by decide, by decide, by decide, by decide⟩

/-- C7: an Added event followed by a Modified event carrying a changed
domain value for the same key leaves exactly one retained value, the
modified one, and Get returns it. -/
theorem c7_modified_event_wins (d d2 : Domain)
    (hk : Domain.key d2 = Domain.key d) (_hne : d2 ≠ d) :
    Cache.get (ingestEvents Cache.empty
        [⟨EventKind.Added, d⟩, ⟨EventKind.Modified, d2⟩]) (Domain.key d)
      = some d2 ∧
    Cache.list (ingestEvents Cache.empty
        [⟨EventKind.Added, d⟩, ⟨EventKind.Modified, d2⟩]) = [d2] := by
  constructor <;>
    simp [ingestEvents, ingestEvent, Cache.add, Cache.get, Cache.empty,
      Cache.list, replaceFun, hk]

/-- Witness for C7: the test's scenario — domain default/test added, then
modified with a changed UUID; the modified value is the one retained. -/
theorem c7_modified_witness :
    Cache.get (ingestEvents Cache.empty
        [⟨EventKind.Added, NewMinimalDomain "test"⟩,
         ⟨EventKind.Modified, ⟨"default", "test", "fakeuuid"⟩⟩])
        (Domain.key (NewMinimalDomain "test"))
      = some ⟨"default", "test", "fakeuuid"⟩ ∧
    Cache.list (ingestEvents Cache.empty
        [⟨EventKind.Added, NewMinimalDomain "test"⟩,
         ⟨EventKind.Modified, ⟨"default", "test", "fakeuuid"⟩⟩])
      = [⟨"default", "test", "fakeuuid"⟩] :=
  c7_modified_event_wins (NewMinimalDomain "test")
    ⟨"default", "test", "fakeuuid"⟩ (by decide) (by decide)

/-- C8: an unreadable socket directory fails bootstrap as a whole and the
error propagates, while any readable directory — whatever its per-socket
failures — always yields a successful bootstrap. -/
theorem c8_directory_unreadable_fatal :
    (∃ msg, runBootstrap DirScan.unreadable = Except.error msg) ∧
    ∀ results : List SocketResult,
      ∃ st, runBootstrap (DirScan.sockets results) = Except.ok st := by
  exact ⟨⟨"failed to read the socket directory", rfl⟩, fun results => ⟨_, rfl⟩⟩

/-- C9: for a migration update that decodes successfully and passes schema
validation, Admit rejects with the cause message "update of Migration
object's spec is restricted" when and only when the new Spec differs from
the old one, and returns a response with Allowed true when the Specs are
equal. -/
theorem c9_migration_spec_update_restricted
    (newM oldM : VirtualMachineInstanceMigration) :
    (newM.spec ≠ oldM.spec →
        MigrationUpdateAdmitter.Admit (MigrationReviewDecode.ok newM oldM) none
          = ToAdmissionResponse [migrationSpecRestrictedCause] ∧
        (MigrationUpdateAdmitter.Admit
            (MigrationReviewDecode.ok newM oldM) none).allowed = false ∧
        responseCauseMessages (MigrationUpdateAdmitter.Admit
            (MigrationReviewDecode.ok newM oldM) none)
          = ["update of Migration object's spec is restricted"]) ∧
    (newM.spec = oldM.spec →
        MigrationUpdateAdmitter.Admit (MigrationReviewDecode.ok newM oldM) none
          = NewPassingAdmissionResponse) := by
  constructor
  · intro h
    refine ⟨?_, ?_, ?_⟩ <;>
      simp [MigrationUpdateAdmitter.Admit, h, ToAdmissionResponse,
        responseCauseMessages, migrationSpecRestrictedCause]
  · intro h
    simp [MigrationUpdateAdmitter.Admit, h, NewPassingAdmissionResponse]

/-- Witness for C9: rejected when only the Spec differs; allowed when the
Specs coincide even though the metadata differs. -/
theorem c9_migration_witness :
    MigrationUpdateAdmitter.Admit
        (MigrationReviewDecode.ok ⟨"m", ⟨"vmi1"⟩⟩ ⟨"m", ⟨"vmi2"⟩⟩) none
      = ToAdmissionResponse [migrationSpecRestrictedCause] ∧
    MigrationUpdateAdmitter.Admit
        (MigrationReviewDecode.ok ⟨"m", ⟨"vmi1"⟩⟩ ⟨"n", ⟨"vmi1"⟩⟩) none
      = NewPassingAdmissionResponse :=
  ⟨((c9_migration_spec_update_restricted ⟨"m", ⟨"vmi1"⟩⟩ ⟨"m", ⟨"vmi2"⟩⟩).1
      (by decide)).1,
   (c9_migration_spec_update_restricted ⟨"m", ⟨"vmi1"⟩⟩ ⟨"n", ⟨"vmi1"⟩⟩).2
      (by decide)⟩

/-- The words of claim C10's message clause: a list of strings joined in
order by ", ". -/
def joinedBySep : List String → String
  | [] => ""
  | [m] => m
  | m :: m2 :: rest => m ++ ", " ++ joinedBySep (m2 :: rest)

theorem append_sep_ne_empty (a m : String) : a ++ ", " ++ m ≠ "" := by
  intro h
  have hlen := congrArg String.length h
  rw [String.length_append, String.length_append] at hlen
  have h2 : (", " : String).length = 2 := rfl
  have h0 : ("" : String).length = 0 := rfl
  rw [h2, h0] at hlen
  omega

theorem joinedBySep_append_sep (a m : String) (ms : List String) :
    joinedBySep ((a ++ ", " ++ m) :: ms) = a ++ ", " ++ joinedBySep (m :: ms) := by
  cases ms with
  | nil => rfl
  | cons m2 rest => simp [joinedBySep, String.append_assoc]

theorem foldl_goStep_ne_empty (ms : List String) (a : String) (ha : a ≠ "") :
    ms.foldl (fun g m => if g = "" then m else g ++ ", " ++ m) a
      = joinedBySep (a :: ms) := by
  induction ms generalizing a with
  | nil => rfl
  | cons m rest ih =>
    rw [List.foldl_cons]
    have hstep : (if a = "" then m else a ++ ", " ++ m) = a ++ ", " ++ m :=
      if_neg ha
    rw [hstep, ih (a ++ ", " ++ m) (append_sep_ne_empty a m),
      joinedBySep_append_sep]
    simp [joinedBySep]

theorem foldl_goStep_empty (ms : List String) :
    ms.foldl (fun g m => if g = "" then m else g ++ ", " ++ m) ""
      = joinedBySep (ms.dropWhile (fun m => m = "")) := by
  induction ms with
  | nil => rfl
  | cons m rest ih =>
    rw [List.foldl_cons]
    by_cases h : m = ""
    · subst h
      simp only [List.dropWhile_cons]
      simp [ih]
    · have hstep : (if ("" : String) = "" then m else "" ++ ", " ++ m) = m :=
        if_pos rfl
      rw [hstep, foldl_goStep_ne_empty rest m h]
      simp [List.dropWhile_cons, h]

/-- The message NewAdmissionResponse accumulates is the ", "-join of the
cause messages after the leading run of empty messages is discarded. -/
theorem joinCauseMessages_eq (causes : List StatusCause) :
    joinCauseMessages causes
      = joinedBySep
          ((causes.map StatusCause.message).dropWhile (fun m => m = "")) := by
  have h1 : joinCauseMessages causes
      = (causes.map StatusCause.message).foldl
          (fun g m => if g = "" then m else g ++ ", " ++ m) "" := by
    rw [List.foldl_map]
    rfl
  rw [h1, foldl_goStep_empty]

/-- C10 counterexample: for causes with messages "" and "x" the response's
message is "x", not the ", "-join ", x" of the messages in order, so the
claim's message clause fails as stated. -/
theorem c10_counterexample :
    ((NewAdmissionResponse [⟨"t", ""⟩, ⟨"t", "x"⟩]).result.elim "" Status.message)
      ≠ joinedBySep
          (([⟨"t", ""⟩, ⟨"t", "x"⟩] : List StatusCause).map StatusCause.message) := by
  decide

/-- C10 (amended): NewAdmissionResponse returns the passing response for an
empty cause list; for a non-empty list it returns a response with Allowed
false whose Result carries HTTP code 422, reason Invalid, all the causes as
details, and a message equal to the causes' messages joined in order by
", " after the leading run of empty messages is discarded (an empty message
later in the list still contributes a separator). -/
theorem c10_admission_response (causes : List StatusCause) :
    (causes = [] → NewAdmissionResponse causes = NewPassingAdmissionResponse) ∧
    (causes ≠ [] →
        NewAdmissionResponse causes
          = { allowed := false,
              result := some
                { message := joinedBySep
                    ((causes.map StatusCause.message).dropWhile (fun m => m = "")),
                  reason := "Invalid",
                  code := 422,
                  details := causes } }) := by
  constructor
  · intro h
    subst h
    rfl
  · intro h
    have hlen : ¬ causes.length = 0 := by
      simpa [List.length_eq_zero] using h
    simp [NewAdmissionResponse, hlen, joinCauseMessages_eq]

/-- Witness for C10 at the empty list and at a two-element cause list. -/
theorem c10_admission_witness :
    NewAdmissionResponse [] = NewPassingAdmissionResponse ∧
    NewAdmissionResponse [⟨"t", "a"⟩, ⟨"u", "b"⟩]
      = { allowed := false,
          result := some
            { message := joinedBySep
                ((([⟨"t", "a"⟩, ⟨"u", "b"⟩] : List StatusCause).map
                    StatusCause.message).dropWhile (fun m => m = "")),
              reason := "Invalid",
              code := 422,
              details := [⟨"t", "a"⟩, ⟨"u", "b"⟩] } } :=
  ⟨(c10_admission_response []).1 rfl,
   (c10_admission_response [⟨"t", "a"⟩, ⟨"u", "b"⟩]).2 (by decide)⟩

end KubeVirt
